import Mathlib

/-!
Infrared: webhook dispatch and docker configuration provider.

A shallow embedding of

* `pkg/webhook/webhook.go` (`Webhook.hasEvent`, `Webhook.DispatchEvent`),
* `pkg/webhook/payload_formatter.go` (`EventMessageTemplate`, `formatter.payload`, `forService`),
* `internal/plugin/webhook/webhook.go` (`loadWebhooks`, `Plugin.Load`, `Plugin.dispatchEvent`),
* `internal/pkg/config/provider/docker.go` (`setNestedValue`, `readConfigData`, `watch`),

followed by the properties proved about them.

Conventions of the embedding:

* a Go `map[string]T` that is only read through `m[k]` and written through `m[k] = v` is a
  lookup function `String → Option T`; a map that is ranged over is the list of its entries
  in the order the range visits them;
* a Go function that can panic (nil dereference) returns `Option`, `none` being the panic;
* calls of external capabilities (HTTP client, docker client, decoding, merging) are
  parameters, and the calls made are recorded in explicit state.
-/

namespace Infrared

/-! ## Go `strings` helpers (only the instances used by the sources) -/

/-- One pass of `strings.Split` for a one-character separator: the segment in front of the
first separator, and the remaining segments. -/
def splitAux (sep : Char) : List Char → List Char × List (List Char)
  | [] => ([], [])
  | c :: cs =>
    let r := splitAux sep cs
    if c = sep then ([], r.1 :: r.2) else (c :: r.1, r.2)

/-- Go `strings.Split(s, sep)` for a one-character separator: always at least one segment
(`strings.Split("", ".")` is `[""]`). -/
def stringsSplit (s : String) (sep : Char) : List String :=
  ((splitAux sep s.toList).1 :: (splitAux sep s.toList).2).map String.mk

/-- Go `strings.Contains(s, sep)` for a one-character `sep`. -/
def stringsContains (s : String) (sep : Char) : Bool :=
  s.toList.contains sep

/-- Go `strings.HasPrefix(s, pre)`. -/
def stringsHasPrefix (s pre : String) : Bool :=
  pre.toList.isPrefixOf s.toList

/-- Go `strings.TrimPrefix(s, pre)`. -/
def stringsTrimPrefix (s pre : String) : String :=
  if stringsHasPrefix s pre then String.mk (s.toList.drop pre.toList.length) else s

/-- Go `strings.Join(xs, sep)`. -/
def stringsJoin (xs : List String) (sep : String) : String :=
  sep.intercalate xs

/-! ## `internal/pkg/config/provider/docker.go` -/

/-- The values a configuration tree (`map[string]any`) holds: a scalar string, a list of
strings, or a nested `map[string]any`.  These are the values the provider stores; every map
is a tree of its own (no two entries share a nested map) and none is a nil map, as for the
maps `readConfigData` and `setNestedValue` create with `map[string]any{}`. -/
inductive Value where
  | str (s : String)
  | strs (l : List String)
  | map (m : String → Option Value)

/-- A `map[string]any`. -/
abbrev Tree := String → Option Value

/-- The empty map literal `map[string]any{}`. -/
def Tree.empty : Tree := fun _ => none

/-- The assignment `m[key] = value`. -/
def Tree.set (m : Tree) (key : String) (value : Value) : Tree :=
  fun k => if k = key then some value else m k

/-- The type assertion `m[key].(map[string]any)`: the nested map and `ok`. -/
def Tree.assertMap (m : Tree) (key : String) : Option Tree :=
  match m key with
  | some (Value.map sub) => some sub
  | _ => none

/-- The loop of `setNestedValue` over `keyPath` followed by the final assignment
`m[keys[len(keys)-1]] = value`.  In each round the entry `m[key]` is kept when it is a
nested map and replaced by a fresh empty map otherwise; the cursor then moves into it.  The
Go code mutates the nested map in place; here the parent is rebuilt around the updated
child. -/
def setNestedLoop (m : Tree) : List String → String → Value → Tree
  | [], last, value => m.set last value
  | key :: rest, last, value =>
    let sub : Tree := match m.assertMap key with
      | some t => t
      | none => Tree.empty
    m.set key (Value.map (setNestedLoop sub rest last value))

/-- The segments `keys := strings.Split(nestedKey, ".")`. -/
def keysOf (nestedKey : String) : List String :=
  stringsSplit nestedKey '.'

/-- Go `setNestedValue(m, nestedKey, value)`; the result is the map `m` after the call.
`keys` is never empty (`keysOf_ne_nil`), so the default of `getLastD` is never taken. -/
def setNestedValue (m : Tree) (nestedKey : String) (value : Value) : Tree :=
  let keys := keysOf nestedKey
  setNestedLoop m keys.dropLast (keys.getLastD "") value

/-- Reading a path of segments in a tree value: the empty path is the value itself, and a
segment can only be followed through a nested map. -/
def Value.resolve : List String → Value → Option Value
  | [], v => some v
  | k :: ks, Value.map m =>
    match m k with
    | some v => Value.resolve ks v
    | none => none
  | _ :: _, _ => none

/-- A value that is not a nested map. -/
def Value.isLeaf : Value → Bool
  | Value.map _ => false
  | _ => true

/-- Reading a path in a `map[string]any`. -/
def Tree.resolve (m : Tree) (path : List String) : Option Value :=
  Value.resolve path (Value.map m)

/-- The provider configuration `DockerConfig`; `ClientTimeout` is a `time.Duration`, in
nanoseconds. -/
structure DockerConfig where
  ClientTimeout : Int
  LabelPrefix : String
  Endpoint : String
  Network : String
  Watch : Bool

/-- A listed container: its `Labels` map in the order the `range` visits it. -/
structure Container where
  Labels : List (String × String)

/-- The value stored for a label: `strings.Split(value, ",")` when the value contains a
comma, the string itself otherwise. -/
def labelValue (value : String) : Value :=
  if stringsContains value ',' then Value.strs (stringsSplit value ',') else Value.str value

/-- The body of the inner loop of `readConfigData` for one label. -/
def labelStep (labelPrefix : String) (data : Tree) (kv : String × String) : Tree :=
  if !stringsHasPrefix kv.1 labelPrefix then data
  else setNestedValue data (stringsTrimPrefix kv.1 labelPrefix) (labelValue kv.2)

/-- The two nested loops of `readConfigData` over the containers and their labels,
starting from `data := map[string]any{}`. -/
def labelLoop (labelPrefix : String) (containers : List Container) : Tree :=
  containers.foldl (fun data c => c.Labels.foldl (labelStep labelPrefix) data) Tree.empty

/-- The provider data types; only `DockerType` occurs here. -/
inductive DataType where
  | DockerType
  deriving DecidableEq

/-- The provider snapshot `Data`; `Typ` is the Go field `Type`. -/
structure Data where
  Typ : DataType
  Config : Tree

/-- The docker client as far as the provider uses it: what the daemon answers to
`ContainerList` for a network filter within a deadline of so many nanoseconds (an error
message or the containers), and the number of `ContainerList` calls made so far. -/
structure DockerClient where
  containerList : String → Int → Except String (List Container)
  listCalls : Nat

/-- The call `p.client.ContainerList(ctx, ...)` under
`ctx, cancel := context.WithTimeout(context.Background(), timeout)`: a context whose timeout
is not positive is done from the start and the call fails with the error of the context;
otherwise the answer is the daemon's within the deadline. -/
def DockerClient.ContainerList (cli : DockerClient) (timeout : Int) (network : String) :
    Except String (List Container) :=
  if timeout ≤ 0 then Except.error "context deadline exceeded"
  else cli.containerList network timeout

/-- Go `docker.readConfigData`: one `ContainerList` call under the deadline
`p.ClientTimeout`, then the label loop. -/
def readConfigData (p : DockerConfig) (cli : DockerClient) :
    Except String Data × DockerClient :=
  let cli1 : DockerClient := { cli with listCalls := cli.listCalls + 1 }
  match cli.ContainerList p.ClientTimeout p.Network with
  | Except.error err => (Except.error err, cli1)
  | Except.ok containers =>
    (Except.ok { Typ := DataType.DockerType, Config := labelLoop p.LabelPrefix containers }, cli1)

/-- A docker event message; only `Action` is read. -/
structure Message where
  Action : String

/-- The state one round of the watch loop acts on: the docker client, the snapshots sent on
`dataCh` so far (oldest first), and the log lines written. -/
structure WatchState where
  client : DockerClient
  dataCh : List Data
  logged : List String

/-- One round of the `for`/`select` loop of `docker.watch` in the case `e := <-events`. -/
def watchEvent (p : DockerConfig) (s : WatchState) (e : Message) : WatchState :=
  match readConfigData p s.client with
  | (Except.error err, cli) =>
    { s with client := cli, logged := s.logged ++ ["failed to read data: " ++ err] }
  | (Except.ok data, cli) =>
    if e.Action = "start" ∨ e.Action = "die" ∨ stringsHasPrefix e.Action "health_status" then
      { s with client := cli, dataCh := s.dataCh ++ [data] }
    else
      { s with client := cli }


/-! ## `pkg/webhook` -/

/-- Errors as values.  `ErrEventTypeNotAllowed` and `ErrPluginViaConfigDisabled` are the two
sentinel errors the sources name; every other error (request construction, transport,
decoding, merging) carries its message. -/
inductive Error where
  | ErrEventTypeNotAllowed
  | ErrPluginViaConfigDisabled
  | other (msg : String)
  deriving DecidableEq

/-- A JSON document, as `encoding/json.Marshal` produces it for the structs marshalled here. -/
inductive Json where
  | str (s : String)
  | bool (b : Bool)
  | arr (xs : List Json)
  | obj (fields : List (String × Json))

/-- The anonymous struct `EventData.Conn`. -/
structure EventDataConn where
  Network : String
  LocalAddr : String
  RemoteAddr : String
  Username : String

/-- The anonymous struct `EventData.Server`. -/
structure EventDataServer where
  ServerID : String
  ServerAddr : String
  Domains : List String

/-- Go `EventData`; `IsLoginRequest` is a `*bool`, `none` being the nil pointer. -/
structure EventData where
  Edition : String
  GatewayID : String
  Conn : EventDataConn
  Server : EventDataServer
  IsLoginRequest : Option Bool

/-- The zero value `var data webhook.EventData`. -/
def EventData.zero : EventData :=
  { Edition := "", GatewayID := "",
    Conn := { Network := "", LocalAddr := "", RemoteAddr := "", Username := "" },
    Server := { ServerID := "", ServerAddr := "", Domains := [] },
    IsLoginRequest := none }

/-- Go `EventLog`; `Typ` is the Go field `Type`, `OccurredAt` a time stamp. -/
structure EventLog where
  Typ : String
  Topics : List String
  OccurredAt : Int
  Data : EventData

/-- Go `FormatterConfig`; `Typ` is the Go field `Type`, `MessageMap` is only read by key. -/
structure FormatterConfig where
  Typ : String
  MessageMap : String → Option String

/-- Go `payloadFunc`: the body it builds, as the JSON document the reader yields. -/
abbrev payloadFunc := String → Json

/-- Go `formatter`; `payloadFormatter` may be nil. -/
structure formatter where
  config : FormatterConfig
  payloadFormatter : Option payloadFunc

/-- Go `DiscordPayload`: `json.Marshal(struct{Content string})`. -/
def DiscordPayload (message : String) : Json :=
  Json.obj [("content", Json.str message)]

/-- Go `SlackPayload`: `json.Marshal(struct{Text string})`. -/
def SlackPayload (message : String) : Json :=
  Json.obj [("text", Json.str message)]

/-- Go `forService`. -/
def forService (name : String) : Option payloadFunc :=
  if name = "discord" then some DiscordPayload
  else if name = "slack" then some SlackPayload
  else none

/-- Go `CreateFormatter`. -/
def CreateFormatter (config : FormatterConfig) : formatter :=
  { config := config, payloadFormatter := forService config.Typ }

/-- Go `strconv.FormatBool`. -/
def strconvFormatBool (b : Bool) : String :=
  if b then "true" else "false"

/-- Go `EventMessageTemplate`.  The last entry dereferences `e.IsLoginRequest`
unconditionally, so the call panics (`none`) when the pointer is nil. -/
def EventMessageTemplate (e : EventData) : Option (List (String × String)) :=
  match e.IsLoginRequest with
  | none => none
  | some b =>
    some [("edition", e.Edition),
      ("gatewayId", e.GatewayID),
      ("conn.network", e.Conn.Network),
      ("conn.localAddress", e.Conn.LocalAddr),
      ("conn.remoteAddress", e.Conn.RemoteAddr),
      ("conn.username", e.Conn.Username),
      ("server.serverId", e.Server.ServerID),
      ("server.serverAddress", e.Server.ServerAddr),
      ("server.domains", stringsJoin e.Server.Domains ", "),
      ("isLoginRequest", strconvFormatBool b)]

/-- What the sources take from outside `src/`: `infrared.ApplyTemplates` (template
substitution, not among the sources), and whether `http.NewRequest` accepts a URL. -/
structure Env where
  ApplyTemplates : List (String × String) → String → String
  validURL : String → Bool

/-- Go `formatter.apply`: the argument `EventMessageTemplate(e)` is evaluated first. -/
def formatter.apply (env : Env) (_f : formatter) (e : EventData) (payload : String) :
    Option String :=
  match EventMessageTemplate e with
  | none => none
  | some t => some (env.ApplyTemplates t payload)

/-- A field with `omitempty` of string type. -/
def omitEmptyStr (name value : String) : List (String × Json) :=
  if value = "" then [] else [(name, Json.str value)]

/-- The document `json.Marshal(e.Data)` for `EventData`, following its struct tags. -/
def marshalEventData (d : EventData) : Json :=
  Json.obj
    ([("edition", Json.str d.Edition),
      ("gatewayId", Json.str d.GatewayID),
      ("client", Json.obj
        ([("network", Json.str d.Conn.Network),
          ("localAddress", Json.str d.Conn.LocalAddr),
          ("remoteAddress", Json.str d.Conn.RemoteAddr)]
          ++ omitEmptyStr "username" d.Conn.Username)),
      ("server", Json.obj
        (omitEmptyStr "serverId" d.Server.ServerID
          ++ omitEmptyStr "serverAddress" d.Server.ServerAddr
          ++ (if d.Server.Domains = [] then []
              else [("domains", Json.arr (d.Server.Domains.map Json.str))])))]
      ++ (match d.IsLoginRequest with
          | none => []
          | some b => [("isLoginRequest", Json.bool b)]))

/-- Go `formatter.payload`; `none` is the panic of `EventMessageTemplate`. -/
def formatter.payload (env : Env) (f : formatter) (e : EventLog) : Option Json :=
  match f.config.MessageMap e.Typ, f.payloadFormatter with
  | some val, some pf =>
    match f.apply env e.Data val with
    | none => none
    | some message => some (pf message)
  | _, _ => some (marshalEventData e.Data)

/-- An HTTP request as far as the sources set it. -/
structure Request where
  Method : String
  URL : String
  Header : List (String × String)
  Body : Json

/-- Go `HTTPClient`: what `Do` answers for a request, the transport error if any (the
response is only closed). -/
abbrev HTTPClient := Request → Option Error

/-- Go `http.NewRequest(method, url, body)`. -/
def httpNewRequest (env : Env) (method url : String) (body : Json) : Except Error Request :=
  if env.validURL url then
    Except.ok { Method := method, URL := url, Header := [], Body := body }
  else Except.error (Error.other ("parse " ++ url))

/-- Go `request.Header.Set(key, value)`. -/
def Request.setHeader (r : Request) (key value : String) : Request :=
  { r with Header := r.Header.filter (fun kv => kv.1 ≠ key) ++ [(key, value)] }

/-- Go `Webhook`; `Formatter` is a `*formatter`, `none` being nil. -/
structure Webhook where
  ID : String
  HTTPClient : HTTPClient
  URL : String
  AllowedTopics : List String
  AllowedServers : List String
  Formatter : Option formatter

/-- Go `Webhook.hasEvent`. -/
def Webhook.hasEvent (webhook : Webhook) (e : EventLog) : Bool :=
  let inServerList :=
    if webhook.AllowedServers.length ≠ 0 then
      webhook.AllowedServers.foldl
        (fun found as => if as = e.Data.Server.ServerID then true else found) false
    else false
  if inServerList then
    webhook.AllowedTopics.any (fun at_ => e.Topics.any (fun et => at_ = et))
  else false

/-- What a returning call of `DispatchEvent` did: the error returned (`none` for nil) and the
requests handed to `HTTPClient.Do`, in order. -/
structure Dispatched where
  err : Option Error
  sent : List Request

/-- Go `Webhook.DispatchEvent`; `none` is a panic while the body is built (nil `Formatter`,
or the nil dereference in `EventMessageTemplate`), which happens before any request is
made. -/
def Webhook.DispatchEvent (env : Env) (webhook : Webhook) (e : EventLog) : Option Dispatched :=
  if !webhook.hasEvent e then
    some { err := some Error.ErrEventTypeNotAllowed, sent := [] }
  else
    match webhook.Formatter with
    | none => none
    | some f =>
      match f.payload env e with
      | none => none
      | some body =>
        match httpNewRequest env "POST" webhook.URL body with
        | Except.error err => some { err := some err, sent := [] }
        | Except.ok request =>
          let request := request.setHeader "Content-Type" "application/json"
          match webhook.HTTPClient request with
          | some err => some { err := some err, sent := [request] }
          | none => some { err := none, sent := [request] }

/-! ## `internal/plugin/webhook` -/

/-- Go `webhookConfig`. -/
structure webhookConfig where
  DialTimeout : Int
  URL : String
  Events : List String
  GatewayIDs : List String
  ServerIDs : List String
  Format : FormatterConfig

/-- The anonymous struct `PluginConfig.Webhook`; `Webhooks` in the order the `range` of
`loadWebhooks` visits it. -/
structure PluginConfigWebhook where
  Enable : Bool
  Webhooks : List (String × webhookConfig)

/-- The anonymous struct `PluginConfig.Defaults`. -/
structure PluginConfigDefaults where
  Webhook : webhookConfig

/-- Go `PluginConfig`. -/
structure PluginConfig where
  Webhook : PluginConfigWebhook
  Defaults : PluginConfigDefaults

/-- The router `map[string][]webhook.Webhook`, gateway id to webhooks. -/
abbrev Router := String → Option (List Webhook)

/-- What the plugin takes from outside `src/`: `config.Unmarshal`, `mergo.Merge` (the merged
destination or an error) and the `http.Client` built for a dial timeout. -/
structure Deps where
  Unmarshal : Tree → Except Error PluginConfig
  Merge : webhookConfig → webhookConfig → Except Error webhookConfig
  NewClient : Int → HTTPClient

/-- Go `newWebhook`. -/
def newWebhook (deps : Deps) (id : String) (cfg : webhookConfig) : Webhook :=
  { ID := id,
    HTTPClient := deps.NewClient cfg.DialTimeout,
    URL := cfg.URL,
    AllowedServers := cfg.ServerIDs,
    AllowedTopics := cfg.Events,
    Formatter := some (CreateFormatter cfg.Format) }

/-- The inner loop of `loadWebhooks` over `whCfg.GatewayIDs`. -/
def registerWebhook (webhooks : Router) (wh : Webhook) (gwIDs : List String) : Router :=
  gwIDs.foldl
    (fun ws gwID => fun k =>
      if k = gwID then
        match ws gwID with
        | none => some [wh]
        | some l => some (l ++ [wh])
      else ws k)
    webhooks

/-- The outer loop of `loadWebhooks`, returning at the first merge error. -/
def loadWebhooksLoop (deps : Deps) (defaults : webhookConfig) :
    List (String × webhookConfig) → Router → Except Error Router
  | [], webhooks => Except.ok webhooks
  | (id, whCfg) :: rest, webhooks =>
    match deps.Merge whCfg defaults with
    | Except.error err => Except.error err
    | Except.ok merged =>
      loadWebhooksLoop deps defaults rest
        (registerWebhook webhooks (newWebhook deps id merged) merged.GatewayIDs)

/-- Go `PluginConfig.loadWebhooks`. -/
def PluginConfig.loadWebhooks (deps : Deps) (cfg : PluginConfig) : Except Error Router :=
  loadWebhooksLoop deps cfg.Defaults.Webhook cfg.Webhook.Webhooks (fun _ => none)

/-- Go `Plugin`, the fields the configuration and the dispatch use. -/
structure Plugin where
  Config : PluginConfig
  whks : Router

/-- Go `Plugin.Load`: the plugin after the call and the error returned. -/
def Plugin.Load (deps : Deps) (p : Plugin) (cfg : Tree) : Plugin × Option Error :=
  match deps.Unmarshal cfg with
  | Except.error err => (p, some err)
  | Except.ok pluginCfg =>
    let p1 : Plugin := { p with Config := pluginCfg }
    if !p1.Config.Webhook.Enable then (p1, some Error.ErrPluginViaConfigDisabled)
    else
      match p1.Config.loadWebhooks deps with
      | Except.error err => (p1, some err)
      | Except.ok whks => ({ p1 with whks := whks }, none)

/-- Go `Plugin.Reload`. -/
def Plugin.Reload (deps : Deps) (p : Plugin) (cfg : Tree) : Plugin × Option Error :=
  match p.Load deps cfg with
  | (p1, some err) => (p1, some err)
  | (p1, none) => (p1, none)

/-- What `infrared.Conn` answers: `Edition().String()`, `LocalAddr().Network()`,
`LocalAddr().String()`, `RemoteAddr().String()`, `GatewayID()`. -/
structure Conn where
  Edition : String
  LocalNetwork : String
  LocalAddr : String
  RemoteAddr : String
  GatewayID : String

/-- What `infrared.Player` answers beyond its `Conn`. -/
structure Player where
  conn : Conn
  MatchedAddr : String
  Username : String
  IsLoginRequest : Bool

/-- What `infrared.Server` answers. -/
structure Server where
  ID : String
  Domains : List String

/-- Go `unmarshalConn`. -/
def unmarshalConn (data : EventData) (c : Conn) : EventData :=
  { data with
    Edition := c.Edition,
    Conn := { data.Conn with
      Network := c.LocalNetwork, LocalAddr := c.LocalAddr, RemoteAddr := c.RemoteAddr },
    GatewayID := c.GatewayID }

/-- Go `unmarshalProcessedConn`. -/
def unmarshalProcessedConn (data : EventData) (pc : Player) : EventData :=
  let data := unmarshalConn data pc.conn
  { data with
    Server := { data.Server with ServerAddr := pc.MatchedAddr },
    Conn := { data.Conn with Username := pc.Username },
    IsLoginRequest := some pc.IsLoginRequest }

/-- Go `unmarshalServer`. -/
def unmarshalServer (data : EventData) (s : Server) : EventData :=
  { data with Server := { data.Server with ServerID := s.ID, Domains := s.Domains } }

/-- The payload variants the type switch of `handleEvent` knows, and the rest. -/
inductive EventPayload where
  | AcceptedConnEvent (c : Conn)
  | PreConnProcessingEvent (c : Conn)
  | PostConnProcessingEvent (pl : Player)
  | PrePlayerJoinEvent (pl : Player) (s : Server)
  | PlayerJoinEvent (pl : Player) (s : Server)
  | PlayerLeaveEvent (pl : Player) (s : Server)
  | unknown

/-- Go `event.Event`. -/
structure Event where
  Topics : List String
  OccurredAt : Int
  Data : EventPayload

/-- What one run of `Plugin.dispatchEvent` did: the webhooks `DispatchEvent` was called on,
in order; the requests handed to the HTTP clients; the errors logged with the webhook id;
and whether the run ended in a panic instead of returning. -/
structure DispatchRun where
  called : List Webhook
  sent : List Request
  logged : List (Error × String)
  panicked : Bool

/-- The `for` loop of `Plugin.dispatchEvent`.  A panicking call unwinds the loop. -/
def dispatchLoop (env : Env) (el : EventLog) : List Webhook → DispatchRun → DispatchRun
  | [], r => r
  | wh :: rest, r =>
    match wh.DispatchEvent env el with
    | none => { r with called := r.called ++ [wh], panicked := true }
    | some d =>
      dispatchLoop env el rest
        { r with
          called := r.called ++ [wh],
          sent := r.sent ++ d.sent,
          logged :=
            match d.err with
            | some err =>
              if err ≠ Error.ErrEventTypeNotAllowed then r.logged ++ [(err, wh.ID)]
              else r.logged
            | none => r.logged }

/-- Go `Plugin.dispatchEvent`. -/
def Plugin.dispatchEvent (env : Env) (p : Plugin) (eventType : String) (e : Event)
    (data : EventData) : DispatchRun :=
  let el : EventLog :=
    { Typ := eventType, Topics := e.Topics, OccurredAt := e.OccurredAt, Data := data }
  dispatchLoop env el ((p.whks data.GatewayID).getD [])
    { called := [], sent := [], logged := [], panicked := false }

/-- The type switch of `handleEvent`: the event type and data handed to `dispatchEvent`, or
`none` for the `default` arm. -/
def eventDataOf (e : Event) : Option (String × EventData) :=
  match e.Data with
  | EventPayload.AcceptedConnEvent c => some ("AcceptedConn", unmarshalConn EventData.zero c)
  | EventPayload.PreConnProcessingEvent c =>
    some ("PreProcessing", unmarshalConn EventData.zero c)
  | EventPayload.PostConnProcessingEvent pl =>
    some ("PostProcessing", unmarshalProcessedConn EventData.zero pl)
  | EventPayload.PrePlayerJoinEvent pl s =>
    some ("PrePlayerJoin", unmarshalServer (unmarshalProcessedConn EventData.zero pl) s)
  | EventPayload.PlayerJoinEvent pl s =>
    some ("PlayerJoin", unmarshalServer (unmarshalProcessedConn EventData.zero pl) s)
  | EventPayload.PlayerLeaveEvent pl s =>
    some ("PlayerLeave", unmarshalServer (unmarshalProcessedConn EventData.zero pl) s)
  | EventPayload.unknown => none

/-- Go `Plugin.handleEvent`; `none` when the event is dropped without a dispatch. -/
def Plugin.handleEvent (env : Env) (p : Plugin) (e : Event) : Option DispatchRun :=
  match eventDataOf e with
  | none => none
  | some (eventType, data) => some (p.dispatchEvent env eventType e data)


/-! ## Concrete inputs used by the evaluations below -/

/-- Collaborators for the evaluations: a template function that substitutes nothing and a
request constructor that accepts every URL. -/
def env0 : Env :=
  { ApplyTemplates := fun _ s => s, validURL := fun _ => true }

/-- A formatter configuration of type `discord` with a template for `AcceptedConn`. -/
def discordConfig : FormatterConfig :=
  { Typ := "discord",
    MessageMap := fun k => if k = "AcceptedConn" then some "connection accepted" else none }

/-- A formatter configuration without type and templates. -/
def plainConfig : FormatterConfig :=
  { Typ := "", MessageMap := fun _ => none }

/-- A webhook as `newWebhook` builds it from `serverIds: [""]`, `events: ["conn"]` and the
format `discordConfig`, with a client whose requests all succeed. -/
def hookA : Webhook :=
  { ID := "a", HTTPClient := fun _ => none, URL := "http://a.example/hook",
    AllowedTopics := ["conn"], AllowedServers := [""],
    Formatter := some (CreateFormatter discordConfig) }

/-- A second webhook with the same filters and the plain format. -/
def hookB : Webhook :=
  { ID := "b", HTTPClient := fun _ => none, URL := "http://b.example/hook",
    AllowedTopics := ["conn"], AllowedServers := [""],
    Formatter := some (CreateFormatter plainConfig) }

/-- A connection accepted on gateway `gw`. -/
def conn0 : Conn :=
  { Edition := "java", LocalNetwork := "tcp", LocalAddr := "0.0.0.0:25565",
    RemoteAddr := "203.0.113.7:50000", GatewayID := "gw" }

/-- The event the bus delivers for `conn0` being accepted. -/
def acceptedEvent : Event :=
  { Topics := ["conn"], OccurredAt := 0, Data := EventPayload.AcceptedConnEvent conn0 }

/-- The event log `dispatchEvent` builds for `acceptedEvent`. -/
def acceptedLog : EventLog :=
  { Typ := "AcceptedConn", Topics := ["conn"], OccurredAt := 0,
    Data := unmarshalConn EventData.zero conn0 }

/-- A webhook configuration without gateways. -/
def emptyWebhookConfig : webhookConfig :=
  { DialTimeout := 0, URL := "", Events := [], GatewayIDs := [], ServerIDs := [],
    Format := plainConfig }

/-- A plugin whose router holds `hookA` then `hookB` for gateway `gw`, loaded from an
enabled configuration. -/
def plugin0 : Plugin :=
  { Config :=
      { Webhook := { Enable := true, Webhooks := [] },
        Defaults := { Webhook := emptyWebhookConfig } },
    whks := fun k => if k = "gw" then some [hookA, hookB] else none }

/-- Collaborators for the evaluation of `Plugin.Load`: decoding yields a configuration with
`enable: false` for every input, merging keeps the destination. -/
def depsDisabled : Deps :=
  { Unmarshal := fun _ =>
      Except.ok { Webhook := { Enable := false, Webhooks := [] },
                  Defaults := { Webhook := emptyWebhookConfig } },
    Merge := fun dst _ => Except.ok dst,
    NewClient := fun _ _ => none }

/-- A docker client that lists one container labelled `infrared.a = "1"`. -/
def dockerClient0 : DockerClient :=
  { containerList := fun _ _ => Except.ok [{ Labels := [("infrared.a", "1")] }],
    listCalls := 0 }

/-- A provider configuration with the label prefix `infrared.` and a client timeout of five
seconds. -/
def dockerConfig0 : DockerConfig :=
  { ClientTimeout := 5000000000, LabelPrefix := "infrared.", Endpoint := "unix:///var/run/docker.sock",
    Network := "bridge", Watch := true }

/-- A watch state before any event. -/
def watchState0 : WatchState :=
  { client := dockerClient0, dataCh := [], logged := [] }


/-! # Properties -/

/-! ## Lemmas on the configuration tree -/

theorem splitAux_join (sep : Char) (cs : List Char) :
    (splitAux sep cs).1 ++ ((splitAux sep cs).2.map (fun seg => sep :: seg)).flatten = cs := by
  induction cs with
  | nil => simp [splitAux]
  | cons c cs ih =>
    by_cases h : c = sep
    · subst h
      simpa [splitAux] using ih
    · simpa [splitAux, h] using ih

theorem splitAux_injective (sep : Char) (a b : List Char)
    (h : splitAux sep a = splitAux sep b) : a = b := by
  rw [← splitAux_join sep a, ← splitAux_join sep b, h]

theorem stringsSplit_injective (sep : Char) (a b : String)
    (h : stringsSplit a sep = stringsSplit b sep) : a = b := by
  unfold stringsSplit at h
  have hmk : Function.Injective String.mk := fun x y hxy => by injection hxy
  have h2 := (List.map_injective_iff.mpr hmk) h
  have h3 : splitAux sep a.toList = splitAux sep b.toList := by
    have := List.cons.inj h2
    exact Prod.ext this.1 this.2
  have h4 := splitAux_injective sep _ _ h3
  exact String.ext h4

theorem keysOf_ne_nil (nestedKey : String) : keysOf nestedKey ≠ [] := by
  simp [keysOf, stringsSplit]

theorem keysOf_injective (a b : String) (h : keysOf a = keysOf b) : a = b :=
  stringsSplit_injective '.' a b h

theorem keysOf_eq (nestedKey : String) :
    (keysOf nestedKey).dropLast ++ [(keysOf nestedKey).getLastD ""] = keysOf nestedKey := by
  have h := keysOf_ne_nil nestedKey
  rw [List.getLastD_eq_getLast?, List.getLast?_eq_getLast _ h]
  exact List.dropLast_append_getLast h

theorem Tree.set_comm (m : Tree) (a b : String) (x y : Value) (h : a ≠ b) :
    (m.set a x).set b y = (m.set b y).set a x := by
  funext k
  simp only [Tree.set]
  by_cases hb : k = b
  · subst hb
    simp [h.symm]
  · simp [hb]

theorem Tree.set_set (m : Tree) (a : String) (x y : Value) :
    (m.set a x).set a y = m.set a y := by
  funext k
  simp only [Tree.set]
  by_cases ha : k = a <;> simp [ha]

theorem Tree.assertMap_set_ne (m : Tree) (a b : String) (x : Value) (h : b ≠ a) :
    (m.set a x).assertMap b = m.assertMap b := by
  simp [Tree.assertMap, Tree.set, h]

theorem Tree.assertMap_set_map (m : Tree) (a : String) (t : Tree) :
    (m.set a (Value.map t)).assertMap a = some t := by
  simp [Tree.assertMap, Tree.set]

theorem Tree.resolve_cons (m : Tree) (k : String) (ks : List String) :
    m.resolve (k :: ks) = match m k with
      | some v => Value.resolve ks v
      | none => none := by
  simp [Tree.resolve, Value.resolve]

theorem Tree.resolve_empty_cons (k : String) (ks : List String) :
    Tree.empty.resolve (k :: ks) = none := by
  simp [Tree.resolve, Value.resolve, Tree.empty]

/-- Reading below the cursor: a non-empty path under `m[key]` reads the same in the map the
loop of `setNestedValue` moves into. -/
theorem resolve_sub (m : Tree) (key a : String) (ps : List String) :
    Tree.resolve (match m.assertMap key with
      | some t => t
      | none => Tree.empty) (a :: ps) = m.resolve (key :: a :: ps) := by
  rw [Tree.resolve_cons m key]
  unfold Tree.assertMap
  cases hk : m key with
  | none => simp [Tree.resolve_empty_cons]
  | some v =>
    cases v with
    | str s => simp [Tree.resolve_empty_cons, Value.resolve]
    | strs l => simp [Tree.resolve_empty_cons, Value.resolve]
    | map t => simp [Tree.resolve]

theorem setNestedLoop_resolve_self (m : Tree) (keyPath : List String) (last : String)
    (value : Value) :
    (setNestedLoop m keyPath last value).resolve (keyPath ++ [last]) = some value := by
  induction keyPath generalizing m with
  | nil => simp [setNestedLoop, Tree.resolve, Value.resolve, Tree.set]
  | cons key rest ih =>
    simp only [setNestedLoop, List.cons_append, Tree.resolve_cons, Tree.set, if_true]
    exact ih _

theorem setNestedLoop_resolve_other (m : Tree) (keyPath : List String) (last : String)
    (value : Value) (p : List String)
    (h1 : ¬ p <+: keyPath ++ [last]) (h2 : ¬ (keyPath ++ [last]) <+: p) :
    (setNestedLoop m keyPath last value).resolve p = m.resolve p := by
  induction keyPath generalizing m p with
  | nil =>
    cases p with
    | nil => exact absurd List.nil_prefix h1
    | cons a ps =>
      have ha : a ≠ last := by
        intro h
        apply h2
        subst h
        simp
      simp [setNestedLoop, Tree.resolve_cons, Tree.set, ha]
  | cons key rest ih =>
    cases p with
    | nil => exact absurd List.nil_prefix h1
    | cons a ps =>
      by_cases ha : a = key
      · subst ha
        cases ps with
        | nil => exact absurd (by simp) h1
        | cons b qs =>
          have h1' : ¬ (b :: qs) <+: rest ++ [last] := fun h => h1 (by simpa using h)
          have h2' : ¬ (rest ++ [last]) <+: (b :: qs) := fun h => h2 (by simpa using h)
          rw [← resolve_sub m a b qs, ← ih _ (b :: qs) h1' h2']
          simp only [setNestedLoop, Tree.resolve_cons, Tree.set, if_true]
          rfl
      · simp [setNestedLoop, Tree.resolve_cons, Tree.set, ha]

theorem setNestedLoop_comm (m : Tree) (kp1 kp2 : List String) (l1 l2 : String)
    (v1 v2 : Value)
    (h1 : ¬ (kp1 ++ [l1]) <+: (kp2 ++ [l2])) (h2 : ¬ (kp2 ++ [l2]) <+: (kp1 ++ [l1])) :
    setNestedLoop (setNestedLoop m kp1 l1 v1) kp2 l2 v2
      = setNestedLoop (setNestedLoop m kp2 l2 v2) kp1 l1 v1 := by
  induction kp1 generalizing m kp2 with
  | nil =>
    cases kp2 with
    | nil =>
      have hne : l1 ≠ l2 := by
        intro h
        apply h1
        subst h
        simp
      simp only [setNestedLoop]
      exact Tree.set_comm m l1 l2 v1 v2 hne
    | cons k2 r2 =>
      have hne : k2 ≠ l1 := by
        intro h
        apply h1
        subst h
        simp
      simp only [setNestedLoop, Tree.assertMap_set_ne m l1 k2 v1 hne]
      exact Tree.set_comm m l1 k2 _ _ (Ne.symm hne)
  | cons k1 r1 ih =>
    cases kp2 with
    | nil =>
      have hne : k1 ≠ l2 := by
        intro h
        apply h2
        subst h
        simp
      simp only [setNestedLoop, Tree.assertMap_set_ne m l2 k1 v2 hne]
      exact Tree.set_comm m k1 l2 _ _ hne
    | cons k2 r2 =>
      by_cases hk : k1 = k2
      · subst hk
        have h1' : ¬ (r1 ++ [l1]) <+: (r2 ++ [l2]) := fun h => h1 (by simpa using h)
        have h2' : ¬ (r2 ++ [l2]) <+: (r1 ++ [l1]) := fun h => h2 (by simpa using h)
        simp only [setNestedLoop, Tree.assertMap_set_map, Tree.set_set]
        rw [ih _ r2 h1' h2']
      · simp only [setNestedLoop, Tree.assertMap_set_ne m k1 k2 _ (Ne.symm hk),
          Tree.assertMap_set_ne m k2 k1 _ hk]
        exact Tree.set_comm m k1 k2 _ _ hk

theorem setNestedValue_resolve_self (m : Tree) (k : String) (v : Value) :
    (setNestedValue m k v).resolve (keysOf k) = some v := by
  have h := setNestedLoop_resolve_self m (keysOf k).dropLast ((keysOf k).getLastD "") v
  rw [keysOf_eq] at h
  exact h

theorem setNestedValue_resolve_other (m : Tree) (k : String) (v : Value) (p : List String)
    (h1 : ¬ p <+: keysOf k) (h2 : ¬ keysOf k <+: p) :
    (setNestedValue m k v).resolve p = m.resolve p := by
  apply setNestedLoop_resolve_other
  · rw [keysOf_eq]; exact h1
  · rw [keysOf_eq]; exact h2

theorem setNestedValue_comm (m : Tree) (k1 k2 : String) (v1 v2 : Value)
    (h1 : ¬ keysOf k1 <+: keysOf k2) (h2 : ¬ keysOf k2 <+: keysOf k1) :
    setNestedValue (setNestedValue m k1 v1) k2 v2
      = setNestedValue (setNestedValue m k2 v2) k1 v1 := by
  apply setNestedLoop_comm
  · rw [keysOf_eq, keysOf_eq]; exact h1
  · rw [keysOf_eq, keysOf_eq]; exact h2


theorem setNestedValue_eq_loop (m : Tree) (k : String) (v : Value) (kp : List String)
    (last : String) (h : keysOf k = kp ++ [last]) :
    setNestedValue m k v = setNestedLoop m kp last v := by
  unfold setNestedValue
  simp only [h]
  simp


theorem stringsTrimPrefix_spec (s pre : String) (h : stringsHasPrefix s pre = true) :
    pre.toList ++ (stringsTrimPrefix s pre).toList = s.toList := by
  unfold stringsHasPrefix at h
  have hp : pre.toList <+: s.toList := List.isPrefixOf_iff_prefix.mp h
  simp only [stringsTrimPrefix, stringsHasPrefix, h, if_true]
  exact List.prefix_iff_eq_append.mp hp

theorem stringsTrimPrefix_injective (a b pre : String) (ha : stringsHasPrefix a pre = true)
    (hb : stringsHasPrefix b pre = true)
    (h : stringsTrimPrefix a pre = stringsTrimPrefix b pre) : a = b := by
  apply String.ext
  show a.toList = b.toList
  rw [← stringsTrimPrefix_spec a pre ha, ← stringsTrimPrefix_spec b pre hb, h]

theorem Value.resolve_append (p q : List String) (v : Value) :
    Value.resolve (p ++ q) v = (Value.resolve p v).bind (Value.resolve q) := by
  induction p generalizing v with
  | nil => simp [Value.resolve]
  | cons k ks ih =>
    cases v with
    | str s => simp [Value.resolve]
    | strs l => simp [Value.resolve]
    | map m =>
      simp only [List.cons_append, Value.resolve]
      cases m k with
      | none => simp
      | some w => simpa using ih w

theorem labelValue_isLeaf (value : String) : (labelValue value).isLeaf = true := by
  unfold labelValue
  split <;> rfl

theorem Value.resolve_leaf_cons (v : Value) (h : v.isLeaf = true) (k : String)
    (ks : List String) : Value.resolve (k :: ks) v = none := by
  cases v with
  | str s => simp [Value.resolve]
  | strs l => simp [Value.resolve]
  | map m => simp [Value.isLeaf] at h

theorem setNestedLoop_resolve_above (m : Tree) (keyPath : List String) (last : String)
    (value : Value) (p : List String) (h1 : p <+: keyPath ++ [last])
    (h2 : p ≠ keyPath ++ [last]) :
    ∃ t, (setNestedLoop m keyPath last value).resolve p = some (Value.map t) := by
  induction keyPath generalizing m p with
  | nil =>
    cases p with
    | nil => exact ⟨_, rfl⟩
    | cons a ps =>
      exfalso
      apply h2
      have h3 : a = last ∧ ps = [] := by simpa using h1
      simp [h3.1, h3.2]
  | cons key rest ih =>
    cases p with
    | nil => exact ⟨_, rfl⟩
    | cons a ps =>
      have h3 : a = key ∧ ps <+: rest ++ [last] := by simpa using h1
      have h4 : ps ≠ rest ++ [last] := by
        intro h
        apply h2
        simp [h3.1, h]
      obtain ⟨t, ht⟩ := ih (match m.assertMap key with
        | some t => t
        | none => Tree.empty) ps h3.2 h4
      refine ⟨t, ?_⟩
      rw [← ht, h3.1]
      simp only [setNestedLoop, Tree.resolve_cons, Tree.set, if_true]
      rfl

/-- What a path reads after `setNestedValue m k v` with a leaf `v`: a leaf is found either at
the path of `k` itself, where it is `v`, or where it was already. -/
theorem setNestedValue_resolve_leaf (m : Tree) (k : String) (v : Value) (hv : v.isLeaf = true)
    (p : List String) (x : Value) (hx : x.isLeaf = true)
    (h : (setNestedValue m k v).resolve p = some x) :
    (p = keysOf k ∧ x = v) ∨ m.resolve p = some x := by
  by_cases hp : p = keysOf k
  · left
    refine ⟨hp, ?_⟩
    rw [hp, setNestedValue_resolve_self] at h
    exact (Option.some.inj h).symm
  · by_cases h1 : p <+: keysOf k
    · exfalso
      have h1' : p <+: (keysOf k).dropLast ++ [(keysOf k).getLastD ""] := by
        rw [keysOf_eq]; exact h1
      have h2' : p ≠ (keysOf k).dropLast ++ [(keysOf k).getLastD ""] := by
        rw [keysOf_eq]; exact hp
      obtain ⟨t, ht⟩ := setNestedLoop_resolve_above m _ _ v p h1' h2'
      have : (setNestedValue m k v).resolve p = some (Value.map t) := ht
      rw [this] at h
      have hxt : x = Value.map t := (Option.some.inj h).symm
      rw [hxt] at hx
      simp [Value.isLeaf] at hx
    · by_cases h2 : keysOf k <+: p
      · exfalso
        obtain ⟨q, hq⟩ := h2
        cases q with
        | nil => exact hp (by simpa using hq.symm)
        | cons a qs =>
          have hs := setNestedValue_resolve_self m k v
          unfold Tree.resolve at h hs
          rw [← hq, Value.resolve_append, hs] at h
          simp [Value.resolve_leaf_cons v hv] at h
      · right
        rw [← setNestedValue_resolve_other m k v p h1 h2]
        exact h

theorem labelLoop_eq_foldl (pre : String) (cs : List Container) :
    labelLoop pre cs = ((cs.map Container.Labels).flatten).foldl (labelStep pre) Tree.empty := by
  unfold labelLoop
  generalize Tree.empty = t
  induction cs generalizing t with
  | nil => rfl
  | cons c cs ih => simp [List.foldl_append, ih]

theorem labelStep_foldl_leaf (pre : String) (labels : List (String × String)) (t : Tree)
    (p : List String) (x : Value) (hx : x.isLeaf = true)
    (h : (labels.foldl (labelStep pre) t).resolve p = some x) :
    (∃ kv ∈ labels, stringsHasPrefix kv.1 pre = true ∧
        p = keysOf (stringsTrimPrefix kv.1 pre) ∧ x = labelValue kv.2) ∨
      t.resolve p = some x := by
  induction labels generalizing t with
  | nil => exact Or.inr h
  | cons kv rest ih =>
    rw [List.foldl_cons] at h
    rcases ih _ h with ⟨kv2, hmem, h3⟩ | h3
    · exact Or.inl ⟨kv2, List.mem_cons_of_mem _ hmem, h3⟩
    · unfold labelStep at h3
      by_cases hpre : stringsHasPrefix kv.1 pre = true
      · simp only [hpre, Bool.not_true, Bool.false_eq_true, if_false] at h3
        rcases setNestedValue_resolve_leaf t _ _ (labelValue_isLeaf kv.2) p x hx h3 with h4 | h4
        · exact Or.inl ⟨kv, List.mem_cons_self _ _, hpre, h4.1, h4.2⟩
        · exact Or.inr h4
      · simp only [hpre, Bool.not_false, if_true] at h3
        exact Or.inr h3

theorem labelStep_foldl_kept (pre : String) (labels : List (String × String)) (t : Tree)
    (p : List String)
    (h : ∀ kv ∈ labels, stringsHasPrefix kv.1 pre = true →
      ¬ p <+: keysOf (stringsTrimPrefix kv.1 pre) ∧
      ¬ keysOf (stringsTrimPrefix kv.1 pre) <+: p) :
    (labels.foldl (labelStep pre) t).resolve p = t.resolve p := by
  induction labels generalizing t with
  | nil => rfl
  | cons kv rest ih =>
    rw [List.foldl_cons, ih _ (fun kv2 hm => h kv2 (List.mem_cons_of_mem _ hm))]
    unfold labelStep
    by_cases hpre : stringsHasPrefix kv.1 pre = true
    · simp only [hpre, Bool.not_true, Bool.false_eq_true, if_false]
      have := h kv (List.mem_cons_self _ _) hpre
      exact setNestedValue_resolve_other t _ _ p this.1 this.2
    · simp [hpre]

theorem labelStep_foldl_filter (pre : String) (labels : List (String × String)) (t : Tree) :
    (labels.filter (fun kv => stringsHasPrefix kv.1 pre)).foldl (labelStep pre) t
      = labels.foldl (labelStep pre) t := by
  induction labels generalizing t with
  | nil => rfl
  | cons kv rest ih =>
    by_cases hpre : stringsHasPrefix kv.1 pre = true
    · simp [List.filter_cons, hpre, ih]
    · have : labelStep pre t kv = t := by simp [labelStep, hpre]
      simp [List.filter_cons, hpre, ih, this]


/-- C3: `setNestedValue` is a last-write-wins path update.  After `setNestedValue(m, k, v)`
the path of `k` reads exactly `v`, whatever `m` held on that path before, and every path
that is neither a prefix nor an extension of the path of `k` reads what it read before.
Started from the empty map, `a.b=1` then `a=2` leaves `a` the scalar `2`; `a.b=1` then
`a.c=2` gives `{a:{b:1,c:2}}`; and an intermediate segment holding a scalar is replaced by
a fresh map holding only the new entry. -/
theorem setNestedValue_last_write_wins (m : Tree) (k : String) (v : Value) :
    (setNestedValue m k v).resolve (keysOf k) = some v ∧
    (∀ p : List String, ¬ p <+: keysOf k → ¬ keysOf k <+: p →
      (setNestedValue m k v).resolve p = m.resolve p) ∧
    setNestedValue (setNestedValue Tree.empty "a.b" (Value.str "1")) "a" (Value.str "2")
      = Tree.empty.set "a" (Value.str "2") ∧
    setNestedValue (setNestedValue Tree.empty "a.b" (Value.str "1")) "a.c" (Value.str "2")
      = Tree.empty.set "a"
          (Value.map ((Tree.empty.set "b" (Value.str "1")).set "c" (Value.str "2"))) ∧
    (∀ s : String, m "a" = some (Value.str s) →
      setNestedValue m "a.b" v = m.set "a" (Value.map (Tree.empty.set "b" v))) := by
  refine ⟨setNestedValue_resolve_self m k v,
    fun p h1 h2 => setNestedValue_resolve_other m k v p h1 h2, ?_, ?_, ?_⟩
  · rw [setNestedValue_eq_loop _ "a.b" _ ["a"] "b" (by decide),
      setNestedValue_eq_loop _ "a" _ [] "a" (by decide)]
    simp only [setNestedLoop, Tree.set_set]
  · rw [setNestedValue_eq_loop _ "a.b" _ ["a"] "b" (by decide),
      setNestedValue_eq_loop _ "a.c" _ ["a"] "c" (by decide)]
    simp only [setNestedLoop, Tree.set_set, Tree.assertMap_set_map]
    simp [Tree.assertMap, Tree.empty]
  · intro s h
    rw [setNestedValue_eq_loop _ "a.b" _ ["a"] "b" (by decide)]
    simp [setNestedLoop, Tree.assertMap, h]

/-- Witness of C3: in `{a: "x", z: "0"}` the assignment `a.b = "1"` replaces the scalar at
`a` by a fresh map, and the unrelated path `z` still reads `"0"`. -/
theorem setNestedValue_last_write_wins_witness :
    (¬ ["z"] <+: keysOf "a.b") ∧ (¬ keysOf "a.b" <+: ["z"]) ∧
    ((Tree.empty.set "a" (Value.str "x")).set "z" (Value.str "0")) "a" = some (Value.str "x") ∧
    (setNestedValue ((Tree.empty.set "a" (Value.str "x")).set "z" (Value.str "0")) "a.b"
        (Value.str "1")).resolve ["z"]
      = ((Tree.empty.set "a" (Value.str "x")).set "z" (Value.str "0")).resolve ["z"] ∧
    setNestedValue ((Tree.empty.set "a" (Value.str "x")).set "z" (Value.str "0")) "a.b"
        (Value.str "1")
      = ((Tree.empty.set "a" (Value.str "x")).set "z" (Value.str "0")).set "a"
          (Value.map (Tree.empty.set "b" (Value.str "1"))) :=
  have hk : keysOf "a.b" = ["a", "b"] := by decide
  have h1 : ¬ ["z"] <+: keysOf "a.b" := by rw [hk]; decide
  have h2 : ¬ keysOf "a.b" <+: ["z"] := by rw [hk]; decide
  have h3 : ((Tree.empty.set "a" (Value.str "x")).set "z" (Value.str "0")) "a"
      = some (Value.str "x") := by simp [Tree.set]
  ⟨h1, h2, h3,
    (setNestedValue_last_write_wins _ "a.b" (Value.str "1")).2.1 ["z"] h1 h2,
    (setNestedValue_last_write_wins _ "a.b" (Value.str "1")).2.2.2.2 "x" h3⟩

theorem labelLoop_example :
    labelLoop "prefix." [⟨[("prefix.servers.ids", "a,b,c")]⟩]
      = Tree.empty.set "servers" (Value.map (Tree.empty.set "ids" (Value.strs ["a", "b", "c"]))) := by
  have h1 : stringsHasPrefix "prefix.servers.ids" "prefix." = true := by decide
  have h2 : stringsTrimPrefix "prefix.servers.ids" "prefix." = "servers.ids" := by decide
  have h3 : labelValue "a,b,c" = Value.strs ["a", "b", "c"] := by
    have hc : stringsContains "a,b,c" ',' = true := by decide
    have hs : stringsSplit "a,b,c" ',' = ["a", "b", "c"] := by decide
    simp [labelValue, hc, hs]
  simp only [labelLoop, List.foldl_cons, List.foldl_nil, labelStep, h1, h2, h3, Bool.not_true,
    Bool.false_eq_true, if_false]
  rw [setNestedValue_eq_loop _ "servers.ids" _ ["servers"] "ids" (by decide)]
  simp [setNestedLoop, Tree.assertMap, Tree.empty]

/-- C4: the tree built by the label loop of `readConfigData`.  Every scalar or list found in
the tree is the value of some label whose key has the configured prefix, found at the
dot-delimited path of the key with the prefix stripped, and it is the list of
comma-separated pieces when the label value contains a comma and the unchanged string
otherwise.  A label with the prefix is stored in this way whenever no label visited after
it has a path that is a prefix or an extension of its path.  Labels without the prefix
contribute nothing: removing them leaves the tree unchanged.  The single label
`prefix.servers.ids = "a,b,c"` with prefix `prefix.` gives `{servers:{ids:["a","b","c"]}}`. -/
theorem labelLoop_entries (pre : String) (cs : List Container) :
    (∀ (p : List String) (x : Value), (labelLoop pre cs).resolve p = some x →
      x.isLeaf = true →
      ∃ kv ∈ (cs.map Container.Labels).flatten, stringsHasPrefix kv.1 pre = true ∧
        p = keysOf (stringsTrimPrefix kv.1 pre) ∧
        x = (if stringsContains kv.2 ',' then Value.strs (stringsSplit kv.2 ',')
              else Value.str kv.2)) ∧
    (∀ (l1 l2 : List (String × String)) (k v : String),
      (cs.map Container.Labels).flatten = l1 ++ (k, v) :: l2 →
      stringsHasPrefix k pre = true →
      (∀ kv ∈ l2, stringsHasPrefix kv.1 pre = true →
        ¬ keysOf (stringsTrimPrefix k pre) <+: keysOf (stringsTrimPrefix kv.1 pre) ∧
        ¬ keysOf (stringsTrimPrefix kv.1 pre) <+: keysOf (stringsTrimPrefix k pre)) →
      (labelLoop pre cs).resolve (keysOf (stringsTrimPrefix k pre))
        = some (if stringsContains v ',' then Value.strs (stringsSplit v ',')
                else Value.str v)) ∧
    labelLoop pre cs
      = labelLoop pre (cs.map (fun c =>
          { Labels := c.Labels.filter (fun kv => stringsHasPrefix kv.1 pre) })) ∧
    labelLoop "prefix." [{ Labels := [("prefix.servers.ids", "a,b,c")] }]
      = Tree.empty.set "servers"
          (Value.map (Tree.empty.set "ids" (Value.strs ["a", "b", "c"]))) := by
  refine ⟨?_, ?_, ?_, labelLoop_example⟩
  · intro p x h hx
    rw [labelLoop_eq_foldl] at h
    rcases labelStep_foldl_leaf pre _ Tree.empty p x hx h with h1 | h1
    · exact h1
    · exfalso
      cases p with
      | nil =>
        have hxe : x = Value.map Tree.empty := (Option.some.inj h1).symm
        rw [hxe] at hx
        simp [Value.isLeaf] at hx
      | cons a ps => simp [Tree.resolve_empty_cons] at h1
  · intro l1 l2 k v hl hpre hlater
    rw [labelLoop_eq_foldl, hl, List.foldl_append, List.foldl_cons,
      labelStep_foldl_kept pre l2 _ _ hlater]
    simp only [labelStep, hpre, Bool.not_true, Bool.false_eq_true, if_false]
    exact setNestedValue_resolve_self _ _ _
  · unfold labelLoop
    generalize Tree.empty = t
    induction cs generalizing t with
    | nil => rfl
    | cons c cs ih =>
      simp only [List.map_cons, List.foldl_cons, labelStep_foldl_filter]
      exact ih _


/-- Witness of C4: one container with the labels `prefix.servers.ids = "a,b,c"` and
`other = "x"`, prefix `prefix.`. -/
theorem labelLoop_entries_witness :
    (labelLoop "prefix."
        [{ Labels := [("prefix.servers.ids", "a,b,c"), ("other", "x")] }]).resolve
        ["servers", "ids"] = some (Value.strs ["a", "b", "c"]) ∧
    (∃ kv ∈ ([{ Labels := [("prefix.servers.ids", "a,b,c"), ("other", "x")] }].map
        Container.Labels).flatten,
      stringsHasPrefix kv.1 "prefix." = true ∧
      ["servers", "ids"] = keysOf (stringsTrimPrefix kv.1 "prefix.") ∧
      Value.strs ["a", "b", "c"] = (if stringsContains kv.2 ',' then
        Value.strs (stringsSplit kv.2 ',') else Value.str kv.2)) :=
  have hpre : stringsHasPrefix "prefix.servers.ids" "prefix." = true := by decide
  have hlater : ∀ kv ∈ [(("other", "x") : String × String)],
      stringsHasPrefix kv.1 "prefix." = true →
      ¬ keysOf (stringsTrimPrefix "prefix.servers.ids" "prefix.")
          <+: keysOf (stringsTrimPrefix kv.1 "prefix.") ∧
      ¬ keysOf (stringsTrimPrefix kv.1 "prefix.")
          <+: keysOf (stringsTrimPrefix "prefix.servers.ids" "prefix.") := by
    intro kv hkv hp
    rw [List.mem_singleton] at hkv
    subst hkv
    exact absurd hp (by decide)
  have hstored := (labelLoop_entries "prefix."
      [{ Labels := [("prefix.servers.ids", "a,b,c"), ("other", "x")] }]).2.1
      [] [("other", "x")] "prefix.servers.ids" "a,b,c" rfl hpre hlater
  have hread : (labelLoop "prefix."
      [{ Labels := [("prefix.servers.ids", "a,b,c"), ("other", "x")] }]).resolve
      ["servers", "ids"] = some (Value.strs ["a", "b", "c"]) := by
    have hk : keysOf (stringsTrimPrefix "prefix.servers.ids" "prefix.") = ["servers", "ids"] := by
      decide
    have hc : stringsContains "a,b,c" ',' = true := by decide
    have hs : stringsSplit "a,b,c" ',' = ["a", "b", "c"] := by decide
    rw [hk, hc, hs] at hstored
    simpa using hstored
  ⟨hread, (labelLoop_entries "prefix."
      [{ Labels := [("prefix.servers.ids", "a,b,c"), ("other", "x")] }]).1
      ["servers", "ids"] (Value.strs ["a", "b", "c"]) hread rfl⟩

theorem labelStep_comm (pre : String) (t : Tree) (x y : String × String)
    (h : stringsHasPrefix x.1 pre = true → stringsHasPrefix y.1 pre = true →
      ¬ keysOf (stringsTrimPrefix x.1 pre) <+: keysOf (stringsTrimPrefix y.1 pre) ∧
      ¬ keysOf (stringsTrimPrefix y.1 pre) <+: keysOf (stringsTrimPrefix x.1 pre)) :
    labelStep pre (labelStep pre t x) y = labelStep pre (labelStep pre t y) x := by
  unfold labelStep
  by_cases hx : stringsHasPrefix x.1 pre = true
  · by_cases hy : stringsHasPrefix y.1 pre = true
    · simp only [hx, hy, Bool.not_true, Bool.false_eq_true, if_false]
      exact setNestedValue_comm t _ _ _ _ (h hx hy).1 (h hx hy).2
    · simp [hx, hy]
  · simp [hx]

/-- C10: the tree does not depend on the order in which the labels are visited.
`setNestedValue(k1, v1)` and `setNestedValue(k2, v2)` commute whenever `k1` and `k2` are
different and neither path is a prefix of the other; hence for entries with distinct keys in
which no path is a proper prefix of another, applying `setNestedValue` in any two orders
gives the same tree from every starting tree; and the inner loop of `readConfigData` gives
the same tree for any two orders of a label map with distinct keys in which no stripped path
is a proper prefix of another. -/
theorem setNestedValue_order_independent (m : Tree) :
    (∀ (k1 k2 : String) (v1 v2 : Value), k1 ≠ k2 →
      ¬ keysOf k1 <+: keysOf k2 → ¬ keysOf k2 <+: keysOf k1 →
      setNestedValue (setNestedValue m k1 v1) k2 v2
        = setNestedValue (setNestedValue m k2 v2) k1 v1) ∧
    (∀ l1 l2 : List (String × Value), l1.Perm l2 → (l1.map Prod.fst).Nodup →
      (∀ x ∈ l1, ∀ y ∈ l1, keysOf x.1 <+: keysOf y.1 → keysOf x.1 = keysOf y.1) →
      l1.foldl (fun t kv => setNestedValue t kv.1 kv.2) m
        = l2.foldl (fun t kv => setNestedValue t kv.1 kv.2) m) ∧
    (∀ (pre : String) (l1 l2 : List (String × String)), l1.Perm l2 →
      (l1.map Prod.fst).Nodup →
      (∀ x ∈ l1, ∀ y ∈ l1, stringsHasPrefix x.1 pre = true →
        stringsHasPrefix y.1 pre = true →
        keysOf (stringsTrimPrefix x.1 pre) <+: keysOf (stringsTrimPrefix y.1 pre) →
        keysOf (stringsTrimPrefix x.1 pre) = keysOf (stringsTrimPrefix y.1 pre)) →
      l1.foldl (labelStep pre) m = l2.foldl (labelStep pre) m) := by
  refine ⟨fun k1 k2 v1 v2 _ h1 h2 => setNestedValue_comm m k1 k2 v1 v2 h1 h2, ?_, ?_⟩
  · intro l1 l2 hperm hnodup hpre
    refine List.Perm.foldl_eq' hperm ?_ m
    intro x hx y hy t
    by_cases hxy : x = y
    · rw [hxy]
    · have hk : x.1 ≠ y.1 := fun h => hxy (List.inj_on_of_nodup_map hnodup hx hy h)
      have hkeys : keysOf x.1 ≠ keysOf y.1 := fun h => hk (keysOf_injective _ _ h)
      exact setNestedValue_comm t x.1 y.1 x.2 y.2 (fun h => hkeys (hpre x hx y hy h))
        (fun h => hkeys (hpre y hy x hx h).symm)
  · intro pre l1 l2 hperm hnodup hpre
    refine List.Perm.foldl_eq' hperm ?_ m
    intro x hx y hy t
    by_cases hxy : x = y
    · rw [hxy]
    · have hk : x.1 ≠ y.1 := fun h => hxy (List.inj_on_of_nodup_map hnodup hx hy h)
      apply labelStep_comm
      intro hpx hpy
      have hkeys : keysOf (stringsTrimPrefix x.1 pre) ≠ keysOf (stringsTrimPrefix y.1 pre) :=
        fun h => hk (stringsTrimPrefix_injective _ _ pre hpx hpy (keysOf_injective _ _ h))
      exact ⟨fun h => hkeys (hpre x hx y hy hpx hpy h),
        fun h => hkeys (hpre y hy x hx hpy hpx h).symm⟩

/-- Witness of C10: the labels `a.b = 1` and `a.c = 2` in both orders, from the empty map. -/
theorem setNestedValue_order_independent_witness :
    "a.b" ≠ "a.c" ∧ ¬ keysOf "a.b" <+: keysOf "a.c" ∧ ¬ keysOf "a.c" <+: keysOf "a.b" ∧
    setNestedValue (setNestedValue Tree.empty "a.b" (Value.str "1")) "a.c" (Value.str "2")
      = setNestedValue (setNestedValue Tree.empty "a.c" (Value.str "2")) "a.b" (Value.str "1") :=
  have hb : keysOf "a.b" = ["a", "b"] := by decide
  have hc : keysOf "a.c" = ["a", "c"] := by decide
  have h0 : "a.b" ≠ "a.c" := by decide
  have h1 : ¬ keysOf "a.b" <+: keysOf "a.c" := by rw [hb, hc]; decide
  have h2 : ¬ keysOf "a.c" <+: keysOf "a.b" := by rw [hb, hc]; decide
  ⟨h0, h1, h2, (setNestedValue_order_independent Tree.empty).1 "a.b" "a.c" (Value.str "1")
    (Value.str "2") h0 h1 h2⟩

/-! ## The webhook filter and dispatch -/

theorem inServerList_foldl (x : String) (l : List String) (b : Bool) :
    l.foldl (fun found as => if as = x then true else found) b = (b || decide (x ∈ l)) := by
  induction l generalizing b with
  | nil => simp
  | cons a l ih =>
    rw [List.foldl_cons, ih]
    by_cases h : a = x
    · subst h
      simp
    · have h2 : ¬ x = a := fun hh => h hh.symm
      simp [h, h2]

theorem hasEvent_eq (w : Webhook) (e : EventLog) :
    w.hasEvent e = (decide (e.Data.Server.ServerID ∈ w.AllowedServers) &&
      w.AllowedTopics.any (fun at_ => e.Topics.any (fun et => at_ = et))) := by
  unfold Webhook.hasEvent
  simp only [inServerList_foldl, Bool.false_or]
  cases hs : w.AllowedServers with
  | nil => simp
  | cons a l =>
    by_cases hm : e.Data.Server.ServerID ∈ a :: l <;> simp [hm]

/-- C1: `Webhook.hasEvent(w, e)` is true exactly when the event's server id is an element of
`w.AllowedServers` and at least one element of `e.Topics` is an element of
`w.AllowedTopics`; with an empty `AllowedServers` it is false for every event log. -/
theorem hasEvent_iff (w : Webhook) (e : EventLog) :
    (w.hasEvent e = true ↔
      e.Data.Server.ServerID ∈ w.AllowedServers ∧ ∃ t ∈ e.Topics, t ∈ w.AllowedTopics) ∧
    (w.AllowedServers = [] → w.hasEvent e = false) := by
  rw [hasEvent_eq]
  constructor
  · simp only [Bool.and_eq_true, decide_eq_true_eq, List.any_eq_true]
    constructor
    · rintro ⟨hs, a, ha, t, ht, hat⟩
      have hat2 : a = t := by simpa using hat
      exact ⟨hs, t, ht, hat2 ▸ ha⟩
    · rintro ⟨hs, t, ht, hta⟩
      exact ⟨hs, t, hta, t, ht, by simp⟩
  · intro h
    simp [h]


/-- Witness of C1: `hookA` with its `AllowedServers` emptied has no event for the log of an
accepted connection, although the topic `conn` is allowed. -/
theorem hasEvent_iff_witness :
    ({ hookA with AllowedServers := [] } : Webhook).AllowedServers = [] ∧
    ({ hookA with AllowedServers := [] } : Webhook).hasEvent acceptedLog = false :=
  ⟨rfl, (hasEvent_iff { hookA with AllowedServers := [] } acceptedLog).2 rfl⟩

theorem DispatchEvent_filtered (env : Env) (w : Webhook) (e : EventLog)
    (h : w.hasEvent e = false) :
    w.DispatchEvent env e = some { err := some Error.ErrEventTypeNotAllowed, sent := [] } := by
  simp [Webhook.DispatchEvent, h]

theorem DispatchEvent_sends_once (env : Env) (w : Webhook) (e : EventLog) (f : formatter)
    (body : Json) (hf : w.Formatter = some f) (hp : f.payload env e = some body)
    (hu : env.validURL w.URL = true) (h : w.hasEvent e = true) :
    w.DispatchEvent env e = some
      { err := w.HTTPClient { Method := "POST", URL := w.URL,
                              Header := [("Content-Type", "application/json")], Body := body },
        sent := [{ Method := "POST", URL := w.URL,
                   Header := [("Content-Type", "application/json")], Body := body }] } := by
  simp only [Webhook.DispatchEvent, h, hf, hp, httpNewRequest, hu, Request.setHeader,
    Bool.not_true, Bool.false_eq_true, if_false, if_true, List.filter_nil, List.nil_append]
  split <;> rename_i hr <;> rw [hr]

theorem payload_generic (env : Env) (cfg : FormatterConfig) (e : EventLog)
    (h : cfg.MessageMap e.Typ = none ∨ (cfg.Typ ≠ "discord" ∧ cfg.Typ ≠ "slack")) :
    (CreateFormatter cfg).payload env e = some (marshalEventData e.Data) := by
  unfold formatter.payload CreateFormatter forService
  rcases h with h | ⟨h1, h2⟩
  · simp [h]
  · simp only [h1, h2, if_false]
    cases cfg.MessageMap e.Typ <;> rfl

theorem payload_templated (env : Env) (cfg : FormatterConfig) (e : EventLog) (val : String)
    (t : List (String × String)) (hm : cfg.MessageMap e.Typ = some val)
    (ht : EventMessageTemplate e.Data = some t) :
    (cfg.Typ = "discord" →
      (CreateFormatter cfg).payload env e = some (DiscordPayload (env.ApplyTemplates t val))) ∧
    (cfg.Typ = "slack" →
      (CreateFormatter cfg).payload env e = some (SlackPayload (env.ApplyTemplates t val))) := by
  constructor
  · intro h
    simp [formatter.payload, CreateFormatter, forService, h, hm, formatter.apply, ht]
  · intro h
    simp [formatter.payload, CreateFormatter, forService, h, hm, formatter.apply, ht]

theorem payload_panics (env : Env) (cfg : FormatterConfig) (e : EventLog) (val : String)
    (ht : cfg.Typ = "discord" ∨ cfg.Typ = "slack") (hm : cfg.MessageMap e.Typ = some val)
    (hn : e.Data.IsLoginRequest = none) :
    (CreateFormatter cfg).payload env e = none := by
  rcases ht with h | h <;>
    simp [formatter.payload, CreateFormatter, forService, h, hm, formatter.apply,
      EventMessageTemplate, hn]

/-- C6, evaluated: the formatter does not guard against the absent login-request flag.  For
every event log whose `IsLoginRequest` is nil, every formatter of type `discord` or `slack`
and every template registered for the event type, whether or not the template mentions
`isLoginRequest`, `formatter.payload` ends in the nil dereference of `EventMessageTemplate`;
and the event adapter leaves the flag nil for `AcceptedConn` and `PreProcessing` events. -/
theorem payload_nil_dereference (env : Env) (cfg : FormatterConfig) (e : EventLog)
    (val : String) (ht : cfg.Typ = "discord" ∨ cfg.Typ = "slack")
    (hm : cfg.MessageMap e.Typ = some val) (hn : e.Data.IsLoginRequest = none) :
    (CreateFormatter cfg).payload env e = none ∧
    (∀ c : Conn, (unmarshalConn EventData.zero c).IsLoginRequest = none) :=
  ⟨payload_panics env cfg e val ht hm hn, fun _ => rfl⟩

/-- Witness of C6: the `discord` formatter with the template `connection accepted`, which
does not mention `isLoginRequest`, on the log of an accepted connection. -/
theorem payload_nil_dereference_witness :
    (discordConfig.Typ = "discord" ∨ discordConfig.Typ = "slack") ∧
    discordConfig.MessageMap acceptedLog.Typ = some "connection accepted" ∧
    acceptedLog.Data.IsLoginRequest = none ∧
    (CreateFormatter discordConfig).payload env0 acceptedLog = none :=
  ⟨Or.inl rfl, by decide, rfl,
    (payload_nil_dereference env0 discordConfig acceptedLog "connection accepted" (Or.inl rfl)
      (by decide) rfl).1⟩

/-- C5, evaluated: with type `discord`, a message-map entry for the event type and a nil
login-request flag, `formatter.payload` yields no payload at all, so it is not the `content`
envelope of any rendered message. -/
theorem payload_not_envelope (env : Env) :
    discordConfig.Typ = "discord" ∧
    discordConfig.MessageMap acceptedLog.Typ = some "connection accepted" ∧
    (CreateFormatter discordConfig).payload env acceptedLog = none ∧
    ∀ message : String,
      (CreateFormatter discordConfig).payload env acceptedLog ≠ some (DiscordPayload message) := by
  have h : (CreateFormatter discordConfig).payload env acceptedLog = none :=
    payload_panics env discordConfig acceptedLog "connection accepted" (Or.inl rfl)
      (by decide) rfl
  refine ⟨rfl, by decide, h, ?_⟩
  intro message
  rw [h]
  exact fun hh => Option.noConfusion hh

theorem hookA_dispatch_panics (env : Env) :
    hookA.hasEvent acceptedLog = true ∧ hookA.DispatchEvent env acceptedLog = none := by
  have h1 : hookA.hasEvent acceptedLog = true := by decide
  have h2 : (CreateFormatter discordConfig).payload env acceptedLog = none :=
    payload_panics env discordConfig acceptedLog "connection accepted" (Or.inl rfl)
      (by decide) rfl
  refine ⟨h1, ?_⟩
  simp only [Webhook.DispatchEvent, h1, Bool.not_true, Bool.false_eq_true, if_false]
  show (match hookA.Formatter with
    | none => none
    | some f => _) = none
  simp only [hookA, h2]

/-- C2, evaluated: the filter holds for `hookA` and the log of an accepted connection (the
server id `""` is in `AllowedServers` and the topic `conn` in `AllowedTopics`), yet
`DispatchEvent` hands no request to the HTTP client and returns no error: it panics while
the body is built. -/
theorem DispatchEvent_panics_before_request (env : Env) :
    hookA.hasEvent acceptedLog = true ∧ hookA.DispatchEvent env acceptedLog = none :=
  hookA_dispatch_panics env

/-! ## The dispatch loop of the plugin -/

theorem dispatchLoop_called_prefix (env : Env) (el : EventLog) (whs : List Webhook)
    (r : DispatchRun) :
    ∃ done : List Webhook, done <+: whs ∧
      (dispatchLoop env el whs r).called = r.called ++ done := by
  induction whs generalizing r with
  | nil => exact ⟨[], List.nil_prefix, by simp [dispatchLoop]⟩
  | cons wh rest ih =>
    unfold dispatchLoop
    cases hd : wh.DispatchEvent env el with
    | none => exact ⟨[wh], by simp, rfl⟩
    | some d =>
      obtain ⟨done, hpre, hc⟩ := ih
        { r with
          called := r.called ++ [wh],
          sent := r.sent ++ d.sent,
          logged :=
            match d.err with
            | some err =>
              if err ≠ Error.ErrEventTypeNotAllowed then r.logged ++ [(err, wh.ID)]
              else r.logged
            | none => r.logged }
      refine ⟨wh :: done, by simpa using hpre, ?_⟩
      simp only [hc, List.append_assoc, List.singleton_append]

theorem dispatchLoop_all_called (env : Env) (el : EventLog) (whs : List Webhook)
    (r : DispatchRun) (h : ∀ wh ∈ whs, (wh.DispatchEvent env el).isSome = true) :
    (dispatchLoop env el whs r).called = r.called ++ whs ∧
    (dispatchLoop env el whs r).panicked = r.panicked := by
  induction whs generalizing r with
  | nil => simp [dispatchLoop]
  | cons wh rest ih =>
    unfold dispatchLoop
    cases hd : wh.DispatchEvent env el with
    | none =>
      have := h wh (List.mem_cons_self _ _)
      rw [hd] at this
      exact absurd this (by simp)
    | some d =>
      have ih2 := ih
        { r with
          called := r.called ++ [wh],
          sent := r.sent ++ d.sent,
          logged :=
            match d.err with
            | some err =>
              if err ≠ Error.ErrEventTypeNotAllowed then r.logged ++ [(err, wh.ID)]
              else r.logged
            | none => r.logged }
        (fun w hw => h w (List.mem_cons_of_mem _ hw))
      simp only [ih2.1, ih2.2, List.append_assoc, List.singleton_append, and_self]

theorem dispatchEvent_no_entry (env : Env) (p : Plugin) (eventType : String) (e : Event)
    (data : EventData) (h : p.whks data.GatewayID = none) :
    p.dispatchEvent env eventType e data
      = { called := [], sent := [], logged := [], panicked := false } := by
  simp [Plugin.dispatchEvent, h, dispatchLoop]

/-- C8, evaluated: the router of `plugin0` holds `hookA` then `hookB` for gateway `gw`.  On
the event of an accepted connection the filter of both holds, `DispatchEvent` on `hookA`
panics, and `dispatchEvent` ends there: `DispatchEvent` is never called on `hookB`.  The
same run is what `handleEvent` produces for the event. -/
theorem dispatchEvent_stops_at_panic (env : Env) :
    plugin0.whks (unmarshalConn EventData.zero conn0).GatewayID = some [hookA, hookB] ∧
    hookB.hasEvent acceptedLog = true ∧
    (plugin0.dispatchEvent env "AcceptedConn" acceptedEvent
        (unmarshalConn EventData.zero conn0)).called = [hookA] ∧
    (plugin0.dispatchEvent env "AcceptedConn" acceptedEvent
        (unmarshalConn EventData.zero conn0)).sent = [] ∧
    (plugin0.dispatchEvent env "AcceptedConn" acceptedEvent
        (unmarshalConn EventData.zero conn0)).panicked = true ∧
    plugin0.handleEvent env acceptedEvent
      = some (plugin0.dispatchEvent env "AcceptedConn" acceptedEvent
          (unmarshalConn EventData.zero conn0)) := by
  have hw : plugin0.whks (unmarshalConn EventData.zero conn0).GatewayID
      = some [hookA, hookB] := by
    simp [plugin0, unmarshalConn, conn0]
  have hp : hookA.DispatchEvent env acceptedLog = none :=
    (hookA_dispatch_panics env).2
  have hrun : plugin0.dispatchEvent env "AcceptedConn" acceptedEvent
      (unmarshalConn EventData.zero conn0)
      = { called := [hookA], sent := [], logged := [], panicked := true } := by
    unfold Plugin.dispatchEvent
    rw [hw]
    show dispatchLoop env acceptedLog [hookA, hookB] _ = _
    simp [dispatchLoop, hp]
  refine ⟨hw, by decide, ?_, ?_, ?_, rfl⟩ <;> rw [hrun]

/-! ## The watch loop -/

theorem watchEvent_of_listing (p : DockerConfig) (s : WatchState) (e : Message)
    (containers : List Container) (ht : 0 < p.ClientTimeout)
    (h : s.client.containerList p.Network p.ClientTimeout = Except.ok containers) :
    (watchEvent p s e).client.listCalls = s.client.listCalls + 1 ∧
    ((e.Action = "start" ∨ e.Action = "die" ∨ stringsHasPrefix e.Action "health_status" = true) →
      (watchEvent p s e).dataCh
        = s.dataCh ++ [{ Typ := DataType.DockerType,
                         Config := labelLoop p.LabelPrefix containers }]) ∧
    (¬ (e.Action = "start" ∨ e.Action = "die" ∨
        stringsHasPrefix e.Action "health_status" = true) →
      (watchEvent p s e).dataCh = s.dataCh) := by
  have hc : s.client.ContainerList p.ClientTimeout p.Network = Except.ok containers := by
    simp [DockerClient.ContainerList, not_le.mpr ht, h]
  unfold watchEvent readConfigData
  simp only [hc]
  by_cases ha : e.Action = "start" ∨ e.Action = "die" ∨
      stringsHasPrefix e.Action "health_status" = true
  · simp [ha]
  · simp [ha]

theorem watchEvent_of_failed_listing (p : DockerConfig) (s : WatchState) (e : Message)
    (err : String) (h : s.client.ContainerList p.ClientTimeout p.Network = Except.error err) :
    (watchEvent p s e).client.listCalls = s.client.listCalls + 1 ∧
    (watchEvent p s e).dataCh = s.dataCh ∧
    (watchEvent p s e).logged = s.logged ++ ["failed to read data: " ++ err] := by
  unfold watchEvent readConfigData
  simp [h]

theorem ContainerList_expired (cli : DockerClient) (timeout : Int) (network : String)
    (h : timeout ≤ 0) :
    cli.ContainerList timeout network = Except.error "context deadline exceeded" := by
  simp [DockerClient.ContainerList, h]

/-- C7 as the code has it: one round of the watch loop on a received container event, with
a container listing that succeeds (a positive client timeout within which the daemon
answers with the containers), performs exactly one re-list whatever the action is; it sends
exactly one snapshot, the one just read, when the action is `start`, `die` or begins with
`health_status`, and sends none for any other action. -/
theorem watchEvent_relists_always (p : DockerConfig) (s : WatchState) (e : Message)
    (containers : List Container) (ht : 0 < p.ClientTimeout)
    (h : s.client.containerList p.Network p.ClientTimeout = Except.ok containers) :
    (watchEvent p s e).client.listCalls = s.client.listCalls + 1 ∧
    ((e.Action = "start" ∨ e.Action = "die" ∨ stringsHasPrefix e.Action "health_status" = true) →
      (watchEvent p s e).dataCh
        = s.dataCh ++ [{ Typ := DataType.DockerType,
                         Config := labelLoop p.LabelPrefix containers }]) ∧
    (¬ (e.Action = "start" ∨ e.Action = "die" ∨
        stringsHasPrefix e.Action "health_status" = true) →
      (watchEvent p s e).dataCh = s.dataCh) :=
  watchEvent_of_listing p s e containers ht h

/-- Witness of C7 as the code has it: the action `die`, with a client timeout of five seconds
within which the daemon lists one container. -/
theorem watchEvent_relists_always_witness :
    0 < dockerConfig0.ClientTimeout ∧
    watchState0.client.ContainerList dockerConfig0.ClientTimeout dockerConfig0.Network
      = Except.ok [{ Labels := [("infrared.a", "1")] }] ∧
    (watchEvent dockerConfig0 watchState0 { Action := "die" }).client.listCalls = 1 ∧
    (watchEvent dockerConfig0 watchState0 { Action := "die" }).dataCh
      = [{ Typ := DataType.DockerType,
           Config := labelLoop "infrared." [{ Labels := [("infrared.a", "1")] }] }] :=
  ⟨by decide, by simp [DockerClient.ContainerList, watchState0, dockerClient0, dockerConfig0],
    (watchEvent_relists_always dockerConfig0 watchState0 { Action := "die" } _ (by decide)
      rfl).1,
    (watchEvent_relists_always dockerConfig0 watchState0 { Action := "die" } _ (by decide)
      rfl).2.1 (Or.inr (Or.inl rfl))⟩

/-- Counterexample to C7: the action `pause` is none of `start`, `die`, `health_status…`,
the listing succeeds (the client timeout is five seconds and the daemon lists one
container), and the round still performs a re-list (the count of `ContainerList` calls goes
from 0 to 1) while sending no snapshot. -/
theorem watchEvent_pause_relists :
    ¬ (("pause" : String) = "start" ∨ ("pause" : String) = "die" ∨
        stringsHasPrefix "pause" "health_status" = true) ∧
    0 < dockerConfig0.ClientTimeout ∧
    watchState0.client.ContainerList dockerConfig0.ClientTimeout dockerConfig0.Network
      = Except.ok [{ Labels := [("infrared.a", "1")] }] ∧
    watchState0.client.listCalls = 0 ∧
    (watchEvent dockerConfig0 watchState0 { Action := "pause" }).client.listCalls = 1 ∧
    (watchEvent dockerConfig0 watchState0 { Action := "pause" }).dataCh = [] ∧
    ¬ ((watchEvent dockerConfig0 watchState0 { Action := "pause" }).client.listCalls
        = watchState0.client.listCalls) := by
  have hn : ¬ (("pause" : String) = "start" ∨ ("pause" : String) = "die" ∨
      stringsHasPrefix "pause" "health_status" = true) := by decide
  have ht : 0 < dockerConfig0.ClientTimeout := by decide
  have h1 : (watchEvent dockerConfig0 watchState0 { Action := "pause" }).client.listCalls
      = 1 :=
    (watchEvent_of_listing dockerConfig0 watchState0 { Action := "pause" } _ ht rfl).1
  have h2 : (watchEvent dockerConfig0 watchState0 { Action := "pause" }).dataCh = [] :=
    (watchEvent_of_listing dockerConfig0 watchState0 { Action := "pause" } _ ht rfl).2.2 hn
  refine ⟨hn, ht, ?_, rfl, h1, h2, ?_⟩
  · simp [DockerClient.ContainerList, watchState0, dockerClient0, dockerConfig0]
  · rw [h1]
    decide

/-! ## Loading the plugin configuration -/

theorem Load_cases (deps : Deps) (p : Plugin) (cfg : Tree) (err : Error)
    (h : (p.Load deps cfg).2 = some err) :
    (p.Load deps cfg).1.whks = p.whks ∧
    ((∃ e, deps.Unmarshal cfg = Except.error e) → (p.Load deps cfg).1.Config = p.Config) ∧
    (∀ pluginCfg, deps.Unmarshal cfg = Except.ok pluginCfg →
      (p.Load deps cfg).1.Config = pluginCfg) := by
  unfold Plugin.Load at h ⊢
  cases hu : deps.Unmarshal cfg with
  | error e => simp
  | ok pluginCfg =>
    simp only [hu] at h ⊢
    by_cases hen : pluginCfg.Webhook.Enable = true
    · simp only [hen, Bool.not_true, Bool.false_eq_true, if_false] at h ⊢
      cases hl : pluginCfg.loadWebhooks deps with
      | error e => simp
      | ok whks =>
        rw [hl] at h
        simp at h
    · simp [hen]

/-- C9 as the code has it: when `Plugin.Load` returns an error, the router mapping `whks` is
unchanged; the stored `Config` is unchanged when the decoding failed, and is the newly
decoded configuration when the decoding succeeded (plugin disabled, or the merge of the
defaults failed).  `Plugin.Reload` returns what `Load` returns. -/
theorem Load_error_keeps_router (deps : Deps) (p : Plugin) (cfg : Tree) (err : Error)
    (h : (p.Load deps cfg).2 = some err) :
    (p.Load deps cfg).1.whks = p.whks ∧
    ((∃ e, deps.Unmarshal cfg = Except.error e) → (p.Load deps cfg).1.Config = p.Config) ∧
    (∀ pluginCfg, deps.Unmarshal cfg = Except.ok pluginCfg →
      (p.Load deps cfg).1.Config = pluginCfg) ∧
    p.Reload deps cfg = p.Load deps cfg := by
  refine ⟨(Load_cases deps p cfg err h).1, (Load_cases deps p cfg err h).2.1,
    (Load_cases deps p cfg err h).2.2, ?_⟩
  unfold Plugin.Reload
  split <;> rename_i hh <;> rw [hh]

/-- Witness of C9 as the code has it: `plugin0` loading a configuration that decodes to
`enable: false`. -/
theorem Load_error_keeps_router_witness :
    (plugin0.Load depsDisabled Tree.empty).2 = some Error.ErrPluginViaConfigDisabled ∧
    (plugin0.Load depsDisabled Tree.empty).1.whks = plugin0.whks :=
  ⟨rfl, (Load_error_keeps_router depsDisabled plugin0 Tree.empty
    Error.ErrPluginViaConfigDisabled rfl).1⟩

/-- Counterexample to C9: `plugin0` holds an enabled configuration; loading a configuration
that decodes to `enable: false` returns `ErrPluginViaConfigDisabled`, and the stored
`Config` is no longer the one from before the call. -/
theorem Load_disabled_replaces_config :
    (plugin0.Load depsDisabled Tree.empty).2 = some Error.ErrPluginViaConfigDisabled ∧
    plugin0.Config.Webhook.Enable = true ∧
    (plugin0.Load depsDisabled Tree.empty).1.Config.Webhook.Enable = false ∧
    (plugin0.Load depsDisabled Tree.empty).1.Config ≠ plugin0.Config := by
  refine ⟨rfl, rfl, rfl, ?_⟩
  intro h
  have h2 : (plugin0.Load depsDisabled Tree.empty).1.Config.Webhook.Enable
      = plugin0.Config.Webhook.Enable := by rw [h]
  exact absurd h2 (by decide)

end Infrared
